import Mathlib

/-!
Verification of the SSAR case-database field-extraction and search engine
(`streamlit_app.py`).  Python strings are modelled as Lean `String`/`List Char`;
`str.lower` is modelled on its ASCII action, the regex character class `\s`
and `str.strip()` on the six ASCII whitespace characters, and `\w`/`\d`/`[A-Za-z]`
on their ASCII meaning, which is exact on the inputs the program handles.
Regular-expression searches are modelled by explicit backtracking-equivalent
scanners over character lists.  The sibling file `ssar_streamlit_app.py` is a
mechanically double-escaped copy (its line 127 is a Python syntax error and all
of its regexes contain doubled backslashes, e.g. its `normalize` deletes the
letter `s` and literal backslashes instead of whitespace), so the runnable
program is `streamlit_app.py`; the definitions below follow that file.
-/

namespace SSAR

/-- ASCII lowercasing of one character, modelling the effect of Python
`str.lower()` on the characters handled here. -/
def lowerChar (c : Char) : Char :=
  match c with
  | 'A' => 'a' | 'B' => 'b' | 'C' => 'c' | 'D' => 'd' | 'E' => 'e' | 'F' => 'f'
  | 'G' => 'g' | 'H' => 'h' | 'I' => 'i' | 'J' => 'j' | 'K' => 'k' | 'L' => 'l'
  | 'M' => 'm' | 'N' => 'n' | 'O' => 'o' | 'P' => 'p' | 'Q' => 'q' | 'R' => 'r'
  | 'S' => 's' | 'T' => 't' | 'U' => 'u' | 'V' => 'v' | 'W' => 'w' | 'X' => 'x'
  | 'Y' => 'y' | 'Z' => 'z'
  | d => d

def lowerLetters : List Char :=
  ['a', 'b', 'c', 'd', 'e', 'f', 'g', 'h', 'i', 'j', 'k', 'l', 'm',
   'n', 'o', 'p', 'q', 'r', 's', 't', 'u', 'v', 'w', 'x', 'y', 'z']

theorem lowerChar_cases (c : Char) : lowerChar c = c ∨ lowerChar c ∈ lowerLetters := by
  unfold lowerChar
  split
  all_goals first
    | exact Or.inl rfl
    | exact Or.inr (by decide)

theorem lowerChar_of_lower (c : Char) (h : c ∈ lowerLetters) : lowerChar c = c := by
  fin_cases h <;> rfl

theorem lowerChar_lowerChar (c : Char) : lowerChar (lowerChar c) = lowerChar c := by
  rcases lowerChar_cases c with h | h
  · rw [h]; exact h
  · exact lowerChar_of_lower _ h

/-- If `lowerChar` maps `d` to a character that is not a lowercase letter,
then `d` was that character already. -/
theorem eq_of_lowerChar_eq (d e : Char) (he : e ∉ lowerLetters)
    (h : lowerChar d = e) : d = e := by
  rcases lowerChar_cases d with h' | h'
  · rw [h'] at h; exact h
  · rw [h] at h'; exact absurd h' he

/-- Python `\s` (ASCII part): the whitespace class used by `re` and `str.strip`. -/
def pySpace (c : Char) : Bool :=
  c == ' ' || c == '\t' || c == '\n' || c == '\r' || c == '\x0B' || c == '\x0C'

/-- Python `\w`: word character, ASCII part. -/
def isWordChar (c : Char) : Bool :=
  c.isAlphanum || c == '_'

def lowerList (l : List Char) : List Char := l.map lowerChar

def lowerStr (s : String) : String := ⟨lowerList s.data⟩

def stripList (l : List Char) : List Char :=
  ((l.dropWhile pySpace).reverse.dropWhile pySpace).reverse

/-- Python `str.strip()` (no argument). -/
def pyStrip (s : String) : String := ⟨stripList s.data⟩

/-- `startsList pat l`: `l` begins with `pat` (character-exact). -/
def startsList : List Char → List Char → Bool
  | [], _ => true
  | _ :: _, [] => false
  | p :: ps, c :: cs => p == c && startsList ps cs

/-- Python `pat in s` on strings: contiguous-substring test. -/
def isSubList (pat : List Char) : List Char → Bool
  | [] => startsList pat []
  | c :: cs => startsList pat (c :: cs) || isSubList pat cs

def isSub (pat s : String) : Bool := isSubList pat.data s.data

/-- Code-point comparison of strings, as Python compares `str` values:
lexicographic on the sequences of code points. -/
def charsLe : List Char → List Char → Bool
  | [], _ => true
  | _ :: _, [] => false
  | a :: as, b :: bs =>
    if a.toNat < b.toNat then true
    else if b.toNat < a.toNat then false
    else charsLe as bs

def strLe (a b : String) : Bool := charsLe a.data b.data

/-- Insert into a sorted list (one step of the sort performed by Python
`sorted`). -/
def insStr (x : String) : List String → List String
  | [] => [x]
  | y :: ys => if strLe x y then x :: y :: ys else y :: insStr x ys

/-- Python `sorted` on a list of strings (insertion sort; the result is the
unique sorted permutation, so the algorithm choice is immaterial). -/
def sortStrings : List String → List String
  | [] => []
  | x :: xs => insStr x (sortStrings xs)

/-- Sortedness in the Python string order. -/
def StrSorted (l : List String) : Prop :=
  List.Pairwise (fun a b => strLe a b = true) l

theorem charsLe_total : ∀ a b : List Char, charsLe a b = true ∨ charsLe b a = true
  | [], _ => Or.inl rfl
  | _ :: _, [] => Or.inr rfl
  | a :: as, b :: bs => by
    simp only [charsLe]
    rcases Nat.lt_trichotomy a.toNat b.toNat with h | h | h
    · left; rw [if_pos h]
    · rw [if_neg (by omega), if_neg (by omega), if_neg (by omega), if_neg (by omega)]
      exact charsLe_total as bs
    · right; rw [if_pos h]

theorem charsLe_trans : ∀ a b c : List Char,
    charsLe a b = true → charsLe b c = true → charsLe a c = true
  | [], _, _, _, _ => rfl
  | _ :: _, [], _, h, _ => by simp [charsLe] at h
  | _ :: _, _ :: _, [], _, h => by simp [charsLe] at h
  | a :: as, b :: bs, c :: cs, hab, hbc => by
    simp only [charsLe] at hab hbc ⊢
    rcases Nat.lt_trichotomy a.toNat b.toNat with h1 | h1 | h1 <;>
      rcases Nat.lt_trichotomy b.toNat c.toNat with h2 | h2 | h2
    all_goals first
      | (rw [if_pos (by omega)])
      | (rw [if_neg (by omega), if_neg (by omega)]
         rw [if_neg (by omega), if_neg (by omega)] at hab hbc
         exact charsLe_trans as bs cs hab hbc)
      | (exfalso
         first
           | (rw [if_neg (by omega), if_pos (by omega)] at hab; exact absurd hab (by simp))
           | (rw [if_neg (by omega), if_pos (by omega)] at hbc; exact absurd hbc (by simp)))

theorem strLe_total (a b : String) : strLe a b = true ∨ strLe b a = true :=
  charsLe_total a.data b.data

theorem strLe_trans (a b c : String) (h1 : strLe a b = true) (h2 : strLe b c = true) :
    strLe a c = true :=
  charsLe_trans a.data b.data c.data h1 h2

theorem perm_insStr (x : String) : ∀ l : List String, (insStr x l).Perm (x :: l)
  | [] => List.Perm.refl _
  | y :: ys => by
    simp only [insStr]
    by_cases h : strLe x y = true
    · rw [if_pos h]
    · rw [if_neg h]
      exact ((perm_insStr x ys).cons y).trans (List.Perm.swap x y ys)

theorem perm_sortStrings : ∀ l : List String, (sortStrings l).Perm l
  | [] => List.Perm.refl _
  | x :: xs => (perm_insStr x (sortStrings xs)).trans ((perm_sortStrings xs).cons x)

theorem mem_insStr (z x : String) (l : List String) :
    z ∈ insStr x l ↔ z = x ∨ z ∈ l := by
  rw [(perm_insStr x l).mem_iff]
  simp

theorem sorted_insStr (x : String) : ∀ l : List String,
    StrSorted l → StrSorted (insStr x l)
  | [], _ => List.pairwise_singleton _ _
  | y :: ys, h => by
    simp only [insStr]
    rcases List.pairwise_cons.mp h with ⟨hy, hys⟩
    by_cases hxy : strLe x y = true
    · rw [if_pos hxy]
      refine List.pairwise_cons.mpr ⟨?_, h⟩
      intro z hz
      rcases List.mem_cons.mp hz with rfl | hz
      · exact hxy
      · exact strLe_trans x y z hxy (hy z hz)
    · rw [if_neg hxy]
      refine List.pairwise_cons.mpr ⟨?_, sorted_insStr x ys hys⟩
      intro z hz
      rcases (mem_insStr z x ys).mp hz with rfl | hz
      · rcases strLe_total z y with h' | h'
        · exact absurd h' hxy
        · exact h'
      · exact hy z hz

theorem sorted_sortStrings : ∀ l : List String, StrSorted (sortStrings l)
  | [] => List.Pairwise.nil
  | x :: xs => sorted_insStr x (sortStrings xs) (sorted_sortStrings xs)

/-- Python `sorted(set(l))` on strings: deduplicate, then sort. -/
def sortedSet (l : List String) : List String := sortStrings l.dedup

/-- The character class removed by the app normalizer:
`re.sub(r'[\s\(\)\[\]\.,:\-]', '', ...)`. -/
def normRemoved (c : Char) : Bool :=
  pySpace c || c == '(' || c == ')' || c == '[' || c == ']' ||
    c == '.' || c == ',' || c == ':' || c == '-'

/-- `normalize` from `streamlit_app.py`: lower-case, then delete whitespace,
parentheses, brackets, periods, commas, colons and hyphens. -/
def normalize (s : String) : String :=
  ⟨(s.data.map lowerChar).filter (fun c => !normRemoved c)⟩

theorem lowerChar_fixed_of_mem_map (c : Char) (l : List Char)
    (h : c ∈ l.map lowerChar) : lowerChar c = c := by
  rcases List.mem_map.mp h with ⟨d, _, rfl⟩
  exact lowerChar_lowerChar d

theorem map_lowerChar_fixed (m : List Char) (h : ∀ c ∈ m, lowerChar c = c) :
    m.map lowerChar = m := by
  induction m with
  | nil => rfl
  | cons a l ih =>
      simp only [List.map_cons]
      rw [h a (List.mem_cons_self a l), ih (fun c hc => h c (List.mem_cons_of_mem a hc))]

theorem normalize_normalize (s : String) : normalize (normalize s) = normalize s := by
  unfold normalize
  congr 1
  have hfix : ∀ c ∈ (s.data.map lowerChar).filter (fun c => !normRemoved c),
      lowerChar c = c := by
    intro c hc
    exact lowerChar_fixed_of_mem_map c s.data (List.mem_filter.mp hc).1
  rw [map_lowerChar_fixed _ hfix, List.filter_filter]
  apply List.filter_congr
  intro c _
  simp [Bool.and_self]

/-- C5: `normalize` is idempotent, and it identifies the punctuation/spacing/case
variants of a citation: `normalize("S. 52(8)") == normalize("s52 8")`. -/
theorem normalize_idempotent_and_citation_equiv :
    (∀ s : String, normalize (normalize s) = normalize s) ∧
      normalize "S. 52(8)" = normalize "s52 8" :=
  ⟨normalize_normalize, by decide⟩

/-- Loop body of `extract_header_window`: `inb` is the `in_block` flag.  When
`inb` is set, a stop-pattern match or a blank line breaks out of the loop;
otherwise the stripped line is collected.  The start-pattern test runs on every
line and raises the flag (`re.match(start_pattern, line, re.IGNORECASE)` is
modelled by the Boolean predicate `startP`, and the stop patterns by `stopPs`). -/
def ehwGo (startP : String → Bool) (stopPs : List (String → Bool)) :
    List String → Bool → List String
  | [], _ => []
  | l :: ls, true =>
    if stopPs.any (fun p => p l) || (pyStrip l) == "" then []
    else pyStrip l :: ehwGo startP stopPs ls true
  | l :: ls, false => ehwGo startP stopPs ls (startP l)

/-- `extract_header_window(lines, start_pattern, stop_patterns)` from
`streamlit_app.py`. -/
def extract_header_window (lines : List String) (startP : String → Bool)
    (stopPs : List (String → Bool)) : List String :=
  ehwGo startP stopPs lines false

theorem ehwGo_false_of_no_start (startP : String → Bool)
    (stopPs : List (String → Bool)) (lines : List String)
    (h : ∀ l ∈ lines, startP l = false) :
    ehwGo startP stopPs lines false = [] := by
  induction lines with
  | nil => rfl
  | cons l ls ih =>
      simp only [ehwGo]
      rw [h l (List.mem_cons_self l ls)]
      exact ih (fun x hx => h x (List.mem_cons_of_mem l hx))

theorem ehwGo_true_eq_takeWhile (startP : String → Bool)
    (stopPs : List (String → Bool)) (post : List String) :
    ehwGo startP stopPs post true
      = (post.takeWhile
          (fun l => !(stopPs.any (fun p => p l)) && !((pyStrip l) == ""))).map pyStrip := by
  induction post with
  | nil => rfl
  | cons l ls ih =>
      by_cases hstop : (stopPs.any (fun p => p l) || (pyStrip l) == "") = true
      · have hcond : (!(stopPs.any fun p => p l) && !((pyStrip l) == "")) = false := by
          rcases Bool.or_eq_true_iff.mp hstop with h | h <;> simp [h]
        simp only [ehwGo, if_pos hstop, List.takeWhile_cons, hcond]
        rfl
      · have h' := hstop
        simp only [Bool.or_eq_true, not_or, Bool.not_eq_true] at h'
        obtain ⟨h1, h2⟩ := h'
        have hcond : (!(stopPs.any fun p => p l) && !((pyStrip l) == "")) = true := by
          simp [h1, h2]
        simp only [ehwGo, if_neg hstop, List.takeWhile_cons, hcond, cond_true,
          List.map_cons, ih]
        simp

/-- C7: the block extractor returns the stripped lines strictly between the
first start-marker line and the first subsequent stop-marker or blank line
(`takeWhile`), and the empty sequence when no line matches the start marker. -/
theorem extract_header_window_spec (startP : String → Bool)
    (stopPs : List (String → Bool)) :
    (∀ lines : List String, (∀ l ∈ lines, startP l = false) →
        extract_header_window lines startP stopPs = []) ∧
    (∀ (pre : List String) (l0 : String) (post : List String),
        (∀ l ∈ pre, startP l = false) → startP l0 = true →
        extract_header_window (pre ++ l0 :: post) startP stopPs
          = (post.takeWhile
              (fun l => !(stopPs.any (fun p => p l)) && !((pyStrip l) == ""))).map pyStrip) := by
  constructor
  · exact fun lines h => ehwGo_false_of_no_start startP stopPs lines h
  · intro pre l0 post hpre hl0
    unfold extract_header_window
    induction pre with
    | nil =>
        simp only [List.nil_append, ehwGo, hl0]
        exact ehwGo_true_eq_takeWhile startP stopPs post
    | cons p ps ih =>
        simp only [List.cons_append, ehwGo]
        rw [hpre p (List.mem_cons_self p ps)]
        exact ih (fun x hx => hpre x (List.mem_cons_of_mem p hx))

/-- Witness for C7 at a concrete input: lines before the marker are ignored,
collection starts after the marker line and stops at the blank line. -/
theorem extract_header_window_spec_witness :
    extract_header_window ["ignored", "Marker", " kept ", "", "dropped"]
        (fun l => l == "Marker") [fun l => l == "Stop"] = ["kept"] := by
  have h := (extract_header_window_spec (fun l => l == "Marker")
      [fun l => l == "Stop"]).2 ["ignored"] "Marker" [" kept ", "", "dropped"]
      (by decide) (by decide)
  exact h.trans (by decide)

/-- Case-insensitive literal match of `pat` against the front of a string,
threading the previous character (for `\b` word-boundary tests).  Returns the
last matched character and the remaining input on success.  `re.IGNORECASE`
literal matching is modelled by comparing lowercased characters. -/
def matchCIp : List Char → Option Char → List Char → Option (Option Char × List Char)
  | [], prev, s => some (prev, s)
  | _ :: _, _, [] => none
  | p :: ps, _, d :: ds =>
    if lowerChar d == lowerChar p then matchCIp ps (some d) ds else none

def optWord : Option Char → Bool
  | none => false
  | some c => isWordChar c

/-- The `\b` assertion between a previous character and the rest of the input
(string boundaries count as non-word). -/
def boundaryB (prev : Option Char) (rest : List Char) : Bool :=
  optWord prev != (match rest with | [] => false | c :: _ => isWordChar c)

/-- `\s*` followed by the literal `sect` followed by the `tail` assertion, with
full backtracking over the amount of whitespace consumed. -/
def wsThen (sect : List Char) (tail : Option Char → List Char → Bool) :
    Option Char → List Char → Bool
  | prev, [] =>
    (match matchCIp sect prev [] with | some (p2, r) => tail p2 r | none => false)
  | prev, c :: cs =>
    (match matchCIp sect prev (c :: cs) with | some (p2, r) => tail p2 r | none => false)
    || (pySpace c && wsThen sect tail (some c) cs)

/-- The alternation `(s|ss|section)`, in source order. -/
def legTokens : List (List Char) := [['s'], ['s', 's'], ['s', 'e', 'c', 't', 'i', 'o', 'n']]

/-- Attempt the whole pattern `(s|ss|section)\s*{sect}{tail}` at the current
position. -/
def legAt (sect : List Char) (tail : Option Char → List Char → Bool)
    (prev : Option Char) (s : List Char) : Bool :=
  legTokens.any (fun t =>
    match matchCIp t prev s with
    | some (p2, r) => wsThen sect tail p2 r
    | none => false)

/-- `re.search`: try the pattern at every position. -/
def legScan (sect : List Char) (tail : Option Char → List Char → Bool) :
    Option Char → List Char → Bool
  | prev, [] => legAt sect tail prev []
  | prev, c :: cs => legAt sect tail prev (c :: cs) || legScan sect tail (some c) cs

/-- The trailing `(\b|\()` of the broad section pattern. -/
def tailBroad : Option Char → List Char → Bool := fun p2 r =>
  boundaryB p2 r || (match r with | c :: _ => c == '(' | [] => false)

/-- Empty trailing assertion (the exact-subsection pattern has none). -/
def tailAny : Option Char → List Char → Bool := fun _ _ => true

/-- `pattern.search(s)` for `re.compile(rf'(s|ss|section)\s*{re.escape(sect)}…',
re.IGNORECASE)`: existence of a match anywhere in `s`. -/
def legPatternSearch (sect : String) (tail : Option Char → List Char → Bool)
    (s : String) : Bool :=
  legScan sect.data tail none s.data

/-- One parsed judgement, with the fields built by the upload loop of
`streamlit_app.py` (`Case Name`, `Year`, `Issues (headnotes)`, `Topic Groups`,
`Legislation referred`, `Cases referred to`, `Quranic verse(s) referred`,
`Main Body`). -/
structure CaseRecord where
  caseName : String
  year : Option Nat
  headnotes : List String
  topicGroups : List String
  legislation : List String
  casesReferred : List String
  quranicVerses : List String
  mainBody : String

/-- `search_legislation_section_strict(df, keywords, section)`: broad section
search.  A row matches when some legislation citation contains a normalized
keyword and the citation text matches `(s|ss|section)\s*{section}(\b|\()`;
the matching case names are returned through Python `sorted`. -/
def search_legislation_section_strict (df : List CaseRecord)
    (keywords : List String) (sct : String) : List String :=
  let ks := keywords.map normalize
  sortStrings
    ((df.filter (fun row => row.legislation.any (fun leg =>
        ks.any (fun k => isSub k (normalize leg) && legPatternSearch sct tailBroad leg)))).map
      CaseRecord.caseName)

/-- `search_legislation_exact_subsection(df, keywords, exact_subsection)`:
same keyword filter, pattern `(s|ss|section)\s*{exact_subsection}` with no
trailing assertion. -/
def search_legislation_exact_subsection (df : List CaseRecord)
    (keywords : List String) (sub : String) : List String :=
  let ks := keywords.map normalize
  sortStrings
    ((df.filter (fun row => row.legislation.any (fun leg =>
        ks.any (fun k => isSub k (normalize leg) && legPatternSearch sub tailAny leg)))).map
      CaseRecord.caseName)

/-- `search_quranic(df, verse_query)`: a row matches when some stored citation,
normalized, equals the normalized query. -/
def search_quranic (df : List CaseRecord) (verse_query : String) : List String :=
  let vn := normalize verse_query
  sortStrings
    ((df.filter (fun row => row.quranicVerses.any (fun v => normalize v == vn))).map
      CaseRecord.caseName)

/-- A record with empty ancillary fields, for concrete corpora. -/
def mkRec (nm : String) (legs qvs : List String) : CaseRecord :=
  ⟨nm, none, [], ["Other"], legs, [], qvs, ""⟩

theorem matchCIp_528 (prev p2 : Option Char) (s r : List Char)
    (h : matchCIp ['5', '2', '(', '8', ')'] prev s = some (p2, r)) :
    ∃ c2 rest2, matchCIp ['5', '2'] prev s = some (some c2, '(' :: rest2) := by
  cases s with
  | nil => simp [matchCIp] at h
  | cons c1 s1 =>
    simp only [matchCIp] at h
    by_cases h1 : (lowerChar c1 == lowerChar '5') = true
    · rw [if_pos h1] at h
      cases s1 with
      | nil => simp [matchCIp] at h
      | cons c2 s2 =>
        simp only [matchCIp] at h
        by_cases h2 : (lowerChar c2 == lowerChar '2') = true
        · rw [if_pos h2] at h
          cases s2 with
          | nil => simp [matchCIp] at h
          | cons c3 s3 =>
            simp only [matchCIp] at h
            by_cases h3 : (lowerChar c3 == lowerChar '(') = true
            · have hc3 : c3 = '(' := by
                have h4 : lowerChar c3 = '(' := by simpa using eq_of_beq h3
                exact eq_of_lowerChar_eq c3 '(' (by decide) h4
              subst hc3
              exact ⟨c2, s3, by simp [matchCIp, h1, h2]⟩
            · rw [if_neg h3] at h
              exact absurd h (by simp)
        · rw [if_neg h2] at h
          exact absurd h (by simp)
    · rw [if_neg h1] at h
      exact absurd h (by simp)

theorem wsThen_528_52 : ∀ (s : List Char) (prev : Option Char),
    wsThen ['5', '2', '(', '8', ')'] tailAny prev s = true →
    wsThen ['5', '2'] tailBroad prev s = true := by
  intro s
  induction s with
  | nil =>
      intro prev h
      simp [wsThen, matchCIp] at h
  | cons c cs ih =>
      intro prev h
      simp only [wsThen, Bool.or_eq_true] at h ⊢
      rcases h with h | h
      · left
        cases hm : matchCIp ['5', '2', '(', '8', ')'] prev (c :: cs) with
        | none => rw [hm] at h; exact absurd h (by simp)
        | some pr =>
            obtain ⟨p2, r⟩ := pr
            obtain ⟨c2, rest2, hm2⟩ := matchCIp_528 prev p2 (c :: cs) r hm
            rw [hm2]
            simp [tailBroad]
      · right
        rw [Bool.and_eq_true] at h ⊢
        exact ⟨h.1, ih (some c) h.2⟩

theorem legAt_528_52 (prev : Option Char) (s : List Char)
    (h : legAt ['5', '2', '(', '8', ')'] tailAny prev s = true) :
    legAt ['5', '2'] tailBroad prev s = true := by
  simp only [legAt, List.any_eq_true] at h ⊢
  rcases h with ⟨t, ht, hm⟩
  refine ⟨t, ht, ?_⟩
  cases hmc : matchCIp t prev s with
  | none => rw [hmc] at hm; exact absurd hm (by simp)
  | some pr =>
      obtain ⟨p2, r⟩ := pr
      rw [hmc] at hm
      exact wsThen_528_52 r p2 hm

theorem legScan_528_52 : ∀ (s : List Char) (prev : Option Char),
    legScan ['5', '2', '(', '8', ')'] tailAny prev s = true →
    legScan ['5', '2'] tailBroad prev s = true := by
  intro s
  induction s with
  | nil => exact fun prev h => legAt_528_52 prev [] h
  | cons c cs ih =>
      intro prev h
      simp only [legScan, Bool.or_eq_true] at h ⊢
      rcases h with h | h
      · exact Or.inl (legAt_528_52 prev (c :: cs) h)
      · exact Or.inr (ih (some c) h)

theorem legPatternSearch_528_52 (leg : String)
    (h : legPatternSearch "52(8)" tailAny leg = true) :
    legPatternSearch "52" tailBroad leg = true :=
  legScan_528_52 leg.data none h

/-- C3: the broad legislation search for section "52" is a superset of the
exact-subsection search for "52(8)" at the same keywords: a match of
`(s|ss|section)\s*52\(8\)` is in particular a match of
`(s|ss|section)\s*52(\b|\()` (the subsection's opening parenthesis satisfies
the trailing alternative). -/
theorem exact_528_subset_broad_52 (df : List SSAR.CaseRecord)
    (keywords : List String) (x : String)
    (hx : x ∈ search_legislation_exact_subsection df keywords "52(8)") :
    x ∈ search_legislation_section_strict df keywords "52" := by
  unfold search_legislation_exact_subsection at hx
  unfold search_legislation_section_strict
  rw [(perm_sortStrings _).mem_iff] at hx ⊢
  rcases List.mem_map.mp hx with ⟨row, hrow, rfl⟩
  refine List.mem_map.mpr ⟨row, ?_, rfl⟩
  rw [List.mem_filter] at hrow ⊢
  refine ⟨hrow.1, ?_⟩
  have h2 := hrow.2
  rw [List.any_eq_true] at h2 ⊢
  rcases h2 with ⟨leg, hleg, hcond⟩
  refine ⟨leg, hleg, ?_⟩
  rw [List.any_eq_true] at hcond ⊢
  rcases hcond with ⟨k, hk, hkk⟩
  refine ⟨k, hk, ?_⟩
  rw [Bool.and_eq_true] at hkk ⊢
  exact ⟨hkk.1, legPatternSearch_528_52 leg hkk.2⟩

def c3df : List CaseRecord := [mkRec "P v Q" ["AMLA s 52(8)"] []]

/-- Witness for C3: a record citing "AMLA s 52(8)" is found by the exact
query for "52(8)", hence by the broad query for "52". -/
theorem exact_528_subset_broad_52_witness :
    ("P v Q" ∈ search_legislation_exact_subsection c3df ["AMLA"] "52(8)") ∧
      "P v Q" ∈ search_legislation_section_strict c3df ["AMLA"] "52" :=
  ⟨by decide, exact_528_subset_broad_52 c3df ["AMLA"] "P v Q" (by decide)⟩

def dupNameDf : List CaseRecord :=
  [mkRec "AB v CD" ["AMLA s 52"] [], mkRec "AB v CD" ["AMLA s 52"] []]

/-- Counterexample for C2: two distinct matching records with the same case
name yield that name twice — `streamlit_app.py` returns
`sorted(df.loc[mask, "Case Name"])` without collapsing duplicates. -/
theorem search_duplicate_names_not_collapsed :
    search_legislation_section_strict dupNameDf ["AMLA"] "52"
        = ["AB v CD", "AB v CD"] ∧
      ¬ (search_legislation_section_strict dupNameDf ["AMLA"] "52").Nodup :=
  ⟨by decide, by decide⟩

/-- C2 (amended): each search returns the case names of the matching records in
lexicographically sorted order; each matching record contributes its name
exactly once (several qualifying citations of one record still give one entry),
but names are not deduplicated across distinct records. -/
theorem search_results_sorted_per_record (df : List CaseRecord)
    (keywords : List String) (sct sub vq : String) :
    (StrSorted (search_legislation_section_strict df keywords sct) ∧
      (search_legislation_section_strict df keywords sct).Perm
        ((df.filter (fun row => row.legislation.any (fun leg =>
            (keywords.map normalize).any (fun k =>
              isSub k (normalize leg) && legPatternSearch sct tailBroad leg)))).map
          CaseRecord.caseName)) ∧
    (StrSorted (search_legislation_exact_subsection df keywords sub) ∧
      (search_legislation_exact_subsection df keywords sub).Perm
        ((df.filter (fun row => row.legislation.any (fun leg =>
            (keywords.map normalize).any (fun k =>
              isSub k (normalize leg) && legPatternSearch sub tailAny leg)))).map
          CaseRecord.caseName)) ∧
    (StrSorted (search_quranic df vq) ∧
      (search_quranic df vq).Perm
        ((df.filter (fun row => row.quranicVerses.any (fun v =>
            normalize v == normalize vq))).map CaseRecord.caseName)) :=
  ⟨⟨sorted_sortStrings _, perm_sortStrings _⟩,
   ⟨sorted_sortStrings _, perm_sortStrings _⟩,
   ⟨sorted_sortStrings _, perm_sortStrings _⟩⟩

def c10df : List CaseRecord := [mkRec "AB v CD" [] ["2:282"]]

/-- C10: normalization deletes the colon, so the query "22:82" and the stored
citation "2:282" normalize to the same digit string "2282", and the scripture
search returns the record even though (22, 82) is not one of its citations. -/
theorem search_quranic_digit_collision :
    search_quranic c10df "22:82" = ["AB v CD"] ∧
      normalize "22:82" = normalize "2:282" ∧
      "22:82" ∉ ["2:282"] :=
  ⟨by decide, by decide, by decide⟩

/-- Split on every character satisfying `p`, keeping empty fragments, as
Python `str.split(sep)` / `re.split` with a single-character class do. -/
def splitOnPred (p : Char → Bool) (l : List Char) : List (List Char) :=
  l.foldr
    (fun c acc =>
      if p c then [] :: acc
      else
        match acc with
        | a :: as => (c :: a) :: as
        | [] => [[c]])
    [[]]

/-- Python `text.split('\n')`. -/
def pySplitLines (s : String) : List String :=
  (splitOnPred (fun c => c == '\n') s.data).map (fun l => ⟨l⟩)

/-- Case-insensitive literal prefix test: `re.match(pattern, s, re.IGNORECASE)`
for a pattern that is a literal. -/
def ciStarts (pat s : String) : Bool :=
  startsList (lowerList pat.data) (lowerList s.data)

/-- `^Cases? referred to` (the `s` is optional). -/
def casesStartP (l : String) : Bool :=
  ciStarts "Cases referred to" l || ciStarts "Case referred to" l

/-- `^Issues? for determination`. -/
def issuesStopP (l : String) : Bool :=
  ciStarts "Issues for determination" l || ciStarts "Issue for determination" l

/-- Stop markers of the legislation block, in source order. -/
def legStops : List (String → Bool) :=
  [fun l => ciStarts "Quranic verse" l, casesStartP, issuesStopP,
   fun l => ciStarts "Background" l]

/-- Case-sensitive literal match threading the previous character. -/
def matchLitP : List Char → Option Char → List Char → Option (Option Char × List Char)
  | [], prev, s => some (prev, s)
  | _ :: _, _, [] => none
  | p :: ps, _, d :: ds => if d == p then matchLitP ps (some d) ds else none

/-- The statute-keyword alternation `(?:Act|Charter|Rules|Ordinance)`. -/
def statuteKws : List (List Char) :=
  ["Act".data, "Charter".data, "Rules".data, "Ordinance".data]

/-- Try `\b{kw}\b` at the current position. -/
def kwHere (kw : List Char) (prev : Option Char) (s : List Char) : Option (List Char) :=
  match matchLitP kw prev s with
  | some (last, rest) =>
    if boundaryB prev s && boundaryB last rest then some kw else none
  | none => none

/-- Scan for the first statute keyword carrying word boundaries; on success,
return the line prefix up to and including the keyword (this is group 1 of
`^(.*?\b(?:Act|Charter|Rules|Ordinance)\b.*?)(?:\([^)]+\))?`, whose lazy
quantifiers and optional tail keep the group minimal) together with the rest
of the line. -/
def statuteScan : List Char → Option Char → List Char → Option (List Char × List Char)
  | _, _, [] => none
  | acc, prev, c :: cs =>
    match statuteKws.findSome? (fun kw => kwHere kw prev (c :: cs)) with
    | some kw => some (acc.reverse ++ kw, (c :: cs).drop kw.length)
    | none => statuteScan (c :: acc) (some c) cs

/-- Group 1 of the first legislation-line regex (`m`), stripped. -/
def statuteName (line : String) : Option String :=
  (statuteScan [] none line.data).map (fun pr => pyStrip ⟨pr.1⟩)

/-- The terminator class `[\s\.,;:]` of the second legislation-line regex. -/
def looseStop (c : Char) : Bool :=
  pySpace c || c == '.' || c == ',' || c == ';' || c == ':'

/-- Minimal lazy extension of group 1 until the next character is in
`[\s\.,;:]` or the line ends. -/
def looseExtend : List Char → List Char → List Char
  | acc, [] => acc.reverse
  | acc, c :: cs => if looseStop c then acc.reverse else looseExtend (c :: acc) cs

/-- Group 1 of the fallback regex (`m2`):
`^(.*?\b(?:Act|Charter|Rules|Ordinance)\b.*?)(?:[\s\.,;:]|$)`, stripped.
It succeeds exactly when `m` does (both need only a bounded keyword), so the
`else` branch of `extract_legislation_block` that uses it is unreachable. -/
def statuteNameLoose (line : String) : Option String :=
  (statuteScan [] none line.data).map
    (fun pr => pyStrip ⟨looseExtend pr.1.reverse pr.2⟩)

def SHORTFORM_MAP : List (String × String) :=
  [("Administration of Muslim Law Act", "AMLA"),
   ("Women‚Äôs Charter", "WC"),
   ("Women\x27s Charter", "WC")]

/-- Python `str.replace` (all non-overlapping occurrences, left to right),
by fuel on the input length; every pattern used on it is nonempty. -/
def replGo : Nat → List Char → List Char → List Char → List Char
  | 0, _, _, s => s
  | _ + 1, _, _, [] => []
  | fuel + 1, pat, rep, c :: cs =>
    if startsList pat (c :: cs) && !pat.isEmpty then
      rep ++ replGo fuel pat rep ((c :: cs).drop pat.length)
    else c :: replGo fuel pat rep cs

def strReplace (s pat rep : String) : String :=
  ⟨replGo s.data.length pat.data rep.data s.data⟩

/-- `add_short_forms(name)`: start from `[name]`; for each registered
(long, short) pair with `long` a substring of `name` and `short` not one,
append `name.replace(long, short)`. -/
def add_short_forms (name : String) : List String :=
  SHORTFORM_MAP.foldl
    (fun out p =>
      if isSub p.1 name && !(isSub p.2 name) then out ++ [strReplace name p.1 p.2]
      else out)
    [name]

/-- The section-token alternation `(s|ss|section|r|rule|cap)`, in source order
(matched case-sensitively: this `findall` has no `IGNORECASE`). -/
def secTokens : List (List Char) :=
  ["s".data, "ss".data, "section".data, "r".data, "rule".data, "cap".data]

/-- Case-sensitive literal prefix match returning the rest. -/
def matchLit : List Char → List Char → Option (List Char)
  | [], s => some s
  | _ :: _, [] => none
  | p :: ps, d :: ds => if d == p then matchLit ps ds else none

/-- Greedy parse of the section-number suffix
`(?:[A-Za-z]|(?:\([\dA-Za-z]+\))*)*`: a sequence of single letters and
parenthesised alphanumeric groups. -/
def sectSuffix : Nat → List Char → (List Char × List Char)
  | 0, s => ([], s)
  | _ + 1, [] => ([], [])
  | fuel + 1, c :: cs =>
    if c.isAlpha then
      let pr := sectSuffix fuel cs
      (c :: pr.1, pr.2)
    else if c == '(' then
      let inner := cs.takeWhile (fun d => d.isAlphanum)
      match cs.drop inner.length with
      | ')' :: rest2 =>
        if inner.isEmpty then ([], c :: cs)
        else
          let pr := sectSuffix fuel rest2
          (c :: (inner ++ ')' :: pr.1), pr.2)
      | _ => ([], c :: cs)
    else ([], c :: cs)

/-- Try `(s|ss|section|r|rule|cap)\s*([0-9]{1,4}(?:[A-Za-z]|(?:\([\dA-Za-z]+\))*)*)`
at the current position (greedy `\s*` cannot give back characters usefully,
since no whitespace character is a digit). -/
def tryTokHere (s : List Char) : Option (String × String × List Char) :=
  secTokens.findSome? (fun tok =>
    match matchLit tok s with
    | some rest =>
      let rest2 := rest.dropWhile pySpace
      let digs := (rest2.takeWhile Char.isDigit).take 4
      if digs.isEmpty then none
      else
        let rest3 := rest2.drop digs.length
        let pr := sectSuffix rest3.length rest3
        some (⟨tok⟩, ⟨digs ++ pr.1⟩, pr.2)
    | none => none)

/-- `re.findall` scanning: leftmost non-overlapping matches. -/
def findSecGo : Nat → List Char → List (String × String)
  | 0, _ => []
  | _ + 1, [] => []
  | fuel + 1, c :: cs =>
    match tryTokHere (c :: cs) with
    | some x => (x.1, x.2.1) :: findSecGo fuel x.2.2
    | none => findSecGo fuel cs

def findSectionTokens (s : List Char) : List (String × String) :=
  findSecGo s.length s

/-- `re.split(r"[,;/]", sect)`. -/
def csvSplit (s : List Char) : List (List Char) :=
  splitOnPred (fun c => c == ',' || c == ';' || c == '/') s

/-- Per-line body of `extract_legislation_block`: if the first regex matches,
emit `"{name} {s_type} {s}"` for every section token, split fragment and
short-form variant; only if it does not (which cannot happen when a statute
keyword is present) fall back to emitting bare names. -/
def legLineActs (line : String) : List String :=
  match statuteName line with
  | some stat =>
    (findSectionTokens line.data).flatMap (fun ts =>
      (csvSplit ts.2.data).flatMap (fun frag =>
        let s := stripList frag
        if s.isEmpty then []
        else (add_short_forms stat).map
          (fun name => name ++ " " ++ ts.1 ++ " " ++ (⟨s⟩ : String))))
  | none =>
    match statuteNameLoose line with
    | some stat => add_short_forms stat
    | none => []

/-- `extract_legislation_block(text)` from `streamlit_app.py`. -/
def extract_legislation_block (text : String) : List String :=
  sortedSet
    ((extract_header_window (pySplitLines text)
        (fun l => ciStarts "Legislation referred to" l) legStops).flatMap legLineActs)

/-- C4: the line "Administration of Muslim Law Act (Cap 3) s 52(8)(d)" in the
legislation block yields both the long-form and the short-form citation. -/
theorem scenario_a_long_and_short_forms :
    "Administration of Muslim Law Act s 52(8)(d)" ∈
        extract_legislation_block
          "Legislation referred to\nAdministration of Muslim Law Act (Cap 3) s 52(8)(d)" ∧
      "AMLA s 52(8)(d)" ∈
        extract_legislation_block
          "Legislation referred to\nAdministration of Muslim Law Act (Cap 3) s 52(8)(d)" :=
  ⟨by decide, by decide⟩

/-- C1 (failing input): a legislation-block line holding a statute keyword but
no section token emits nothing — the bare-name `else` branch is dead because
the first regex already matches whenever a keyword is present, and its `for`
loop over the empty token list appends nothing. -/
theorem keyword_without_section_emits_nothing :
    extract_legislation_block "Legislation referred to\nWomen\x27s Charter" = [] := by
  decide

/-- Case-insensitive literal prefix match returning the rest. -/
def matchCI (pat s : List Char) : Option (List Char) :=
  (matchCIp pat none s).map Prod.snd

/-- `Option`-valued `mapM`, written out as the Python loop that aborts the
whole batch when one element raises. -/
def optMapM {a b : Type} (f : a → Option b) : List a → Option (List b)
  | [] => some []
  | x :: xs =>
    match f x with
    | none => none
    | some y =>
      match optMapM f xs with
      | none => none
      | some ys => some (y :: ys)

/-- `re.findall(r'Surah\s*(\d+)', l, re.IGNORECASE)`: the captured digit
strings, leftmost non-overlapping. -/
def surahGo : Nat → List Char → List String
  | 0, _ => []
  | _ + 1, [] => []
  | fuel + 1, c :: cs =>
    match matchCI "Surah".data (c :: cs) with
    | some rest =>
      let sp := rest.dropWhile pySpace
      let digs := sp.takeWhile Char.isDigit
      if digs.isEmpty then surahGo fuel cs
      else (⟨digs⟩ : String) :: surahGo fuel (sp.drop digs.length)
    | none => surahGo fuel cs

/-- The verse-argument class `[\d,\-\‚Äì ]` (the last three characters before
the space are the mojibake U+201A, U+00C4, U+00EC found in the source). -/
def vClass (c : Char) : Bool :=
  c.isDigit || c == ',' || c == '-' || c == '‚' || c == 'Ä' ||
    c == 'ì' || c == ' '

/-- `re.finditer(r'verse[s]?\s*([\d,\-\‚Äì ]+)', l, re.IGNORECASE)`: the
captured group-1 strings.  Since the space belongs both to `\s*` and to the
class, the greedy `\s*` gives one space back when nothing else can start the
group, so a match can capture a lone space. -/
def verseGo : Nat → List Char → List (List Char)
  | 0, _ => []
  | _ + 1, [] => []
  | fuel + 1, c :: cs =>
    match matchCI "verse".data (c :: cs) with
    | some rest =>
      let rest1 :=
        match rest with
        | d :: ds => if lowerChar d == 's' then ds else rest
        | [] => []
      let ws := rest1.takeWhile pySpace
      let rest2 := rest1.drop ws.length
      match rest2.head? with
      | some d =>
        if vClass d then
          let grp := rest2.takeWhile vClass
          grp :: verseGo fuel (rest2.drop grp.length)
        else if ws.contains ' ' then
          [' '] :: verseGo fuel ((ws.reverse.takeWhile (fun e => !(e == ' '))).reverse ++ rest2)
        else verseGo fuel cs
      | none =>
        if ws.contains ' ' then
          [' '] :: verseGo fuel ((ws.reverse.takeWhile (fun e => !(e == ' '))).reverse ++ rest2)
        else verseGo fuel cs
    | none => verseGo fuel cs

/-- The dash class `[‚Äì-]` used for ranges. -/
def dashCls (c : Char) : Bool :=
  c == '‚' || c == 'Ä' || c == 'ì' || c == '-'

/-- `re.search(r'\d+[‚Äì-]\d+', frag)`: a digit, a dash, a digit in a row. -/
def hasDigitDashDigit : List Char → Bool
  | a :: b :: c :: rest =>
    (a.isDigit && dashCls b && c.isDigit) || hasDigitDashDigit (b :: c :: rest)
  | _ => false

/-- Python `int(str)`: strip whitespace, then a nonempty digit string; `none`
models the `ValueError` that would abort the batch. -/
def pyInt (l : List Char) : Option Nat :=
  let t := stripList l
  if t.isEmpty then none
  else if t.all Char.isDigit then
    some (t.foldl (fun n c => n * 10 + (c.toNat - 48)) 0)
  else none

/-- `[f"{surah}:{v}" for v in range(a, b+1)]`. -/
def rangeVerses (su : String) (a b : Nat) : List String :=
  (List.range' a (b + 1 - a)).map (fun v => su ++ ":" ++ toString v)

/-- One comma fragment of a verse argument: a range `a-b` expands inclusively
(`a, b = re.split(...)` raises unless exactly two parts), a digit string
yields one citation, anything else nothing. -/
def fragVerses (su : String) (frag : List Char) : Option (List String) :=
  let f := stripList frag
  if hasDigitDashDigit f then
    match splitOnPred dashCls f with
    | [a, b] =>
      match pyInt a, pyInt b with
      | some x, some y => some (rangeVerses su x y)
      | _, _ => none
    | _ => none
  else if !f.isEmpty && f.all Char.isDigit then some [su ++ ":" ++ (⟨f⟩ : String)]
  else some []

def vpartVerses (su : String) (vp : List Char) : Option (List String) :=
  (optMapM (fragVerses su) (splitOnPred (fun c => c == ',') vp)).map List.flatten

/-- `re.findall(r'Surah\s*(\d+)\s*[:]\s*(\d+)', l, re.IGNORECASE)`, already
formatted as `"{surah}:{verse}"`. -/
def svShortGo : Nat → List Char → List String
  | 0, _ => []
  | _ + 1, [] => []
  | fuel + 1, c :: cs =>
    match matchCI "Surah".data (c :: cs) with
    | some rest =>
      let sp1 := rest.dropWhile pySpace
      let d1 := sp1.takeWhile Char.isDigit
      if d1.isEmpty then svShortGo fuel cs
      else
        match (sp1.drop d1.length).dropWhile pySpace with
        | ':' :: sp3 =>
          let sp4 := sp3.dropWhile pySpace
          let d2 := sp4.takeWhile Char.isDigit
          if d2.isEmpty then svShortGo fuel cs
          else ((⟨d1⟩ : String) ++ ":" ++ (⟨d2⟩ : String)) :: svShortGo fuel (sp4.drop d2.length)
        | _ => svShortGo fuel cs
    | none => svShortGo fuel cs

/-- Per-line body of `extract_quranic_verses_block`: for every surah number on
the line, expand every verse argument; then append the inline `Surah N : M`
citations. -/
def lineQuranic (l : String) : Option (List String) :=
  (optMapM (fun su => (optMapM (vpartVerses su) (verseGo l.data.length l.data)).map List.flatten)
      (surahGo l.data.length l.data)).map
    (fun vss => vss.flatten ++ svShortGo l.data.length l.data)

/-- Stop markers of the scripture block, in source order. -/
def qStops : List (String → Bool) :=
  [fun l => ciStarts "Legislation referred to" l, casesStartP, issuesStopP,
   fun l => ciStarts "Background" l]

/-- `extract_quranic_verses_block(text)`; `none` models the uncaught
`ValueError` on a malformed range. -/
def extract_quranic_verses_block (text : String) : Option (List String) :=
  (optMapM lineQuranic
      (extract_header_window (pySplitLines text)
        (fun l => ciStarts "Quranic verse(s) referred to" l) qStops)).map
    (fun vss => sortedSet vss.flatten)

/-- C6: "Surah 2 verses 282-284" expands to one citation per verse of the
inclusive range. -/
theorem scenario_b_range_expansion :
    extract_quranic_verses_block "Quranic verse(s) referred to\nSurah 2 verses 282-284"
      = some ["2:282", "2:283", "2:284"] := by
  decide

/-- A `(20\d{2}|19\d{2})` match at the head of the list, with its integer
value. -/
def yearHere : List Char → Option Nat
  | c1 :: c2 :: c3 :: c4 :: _ =>
    if ((c1 == '2' && c2 == '0') || (c1 == '1' && c2 == '9')) && c3.isDigit && c4.isDigit then
      some (1000 * (c1.toNat - 48) + 100 * (c2.toNat - 48) +
        10 * (c3.toNat - 48) + (c4.toNat - 48))
    else none
  | _ => none

def yearScan : List Char → Option Nat
  | [] => none
  | c :: cs =>
    match yearHere (c :: cs) with
    | some v => some v
    | none => yearScan cs

/-- `extract_year(text)`: `int` of the first `(20\d{2}|19\d{2})` match, else
absent. -/
def extract_year (text : String) : Option Nat := yearScan text.data

/-- ASCII `[A-Z]`. -/
def isUpperA (c : Char) : Bool := 'A' ≤ c && c ≤ 'Z'

/-- `^[A-Z]{2,}$` against a whole line. -/
def upper2Full (l : List Char) : Bool := l.length ≥ 2 && l.all isUpperA

/-- `re.match(r"^[A-Z]{2,} v [A-Z]{2,}", l)`, with `$` when `requireEnd`.
The first run must be maximal (shrinking it leaves an uppercase letter where
the literal space is required), likewise the second for the `$` variant. -/
def upperVupper (requireEnd : Bool) (l : List Char) : Bool :=
  let r1 := l.takeWhile isUpperA
  if r1.length < 2 then false
  else
    match l.drop r1.length with
    | ' ' :: 'v' :: ' ' :: rest =>
      let r2 := rest.takeWhile isUpperA
      if r2.length < 2 then false
      else if requireEnd then (rest.drop r2.length).isEmpty else true
    | _ => false

/-- `line.startswith("Re ") and re.match(r"^Re [A-Z]{2,}$", line)`. -/
def reUpperFull (l : List Char) : Bool :=
  match l with
  | 'R' :: 'e' :: ' ' :: rest => rest.length ≥ 2 && rest.all isUpperA
  | _ => false

/-- The report-series banner test of `extract_case_name_first_block`. -/
def bannerP (l : String) : Bool :=
  isSub "SYARIAH APPEALS REPORTS" l || (isSub "SSAR" l && isSub "REPORTS" l)

/-- `os.path.splitext(filename)[0]` for a bare file name: strip the extension
after the last dot, except that leading dots never start an extension. -/
def stemOf (filename : String) : String :=
  let cs := filename.data
  let leading := cs.takeWhile (fun c => c == '.')
  let rest := cs.drop leading.length
  if rest.any (fun c => c == '.') then
    ⟨leading ++ ((rest.reverse.dropWhile (fun c => !(c == '.'))).tail).reverse⟩
  else ⟨cs⟩

/-- The three-line window scan: `block[j]` all-uppercase, `block[j+1].lower()
== "v"`, `block[j+2]` all-uppercase. -/
def threeScan : List String → Option String
  | a :: b :: c :: rest =>
    if upper2Full a.data && (lowerStr b == "v") && upper2Full c.data then
      some (a ++ " v " ++ c)
    else threeScan (b :: c :: rest)
  | _ => none

def singleLineName (l : String) : Bool :=
  upperVupper true l.data || reUpperFull l.data

/-- `extract_case_name_first_block(text, filename)` from `streamlit_app.py`. -/
def extract_case_name_first_block (text filename : String) : String :=
  let lines := ((pySplitLines text).map pyStrip).filter (fun l => !(l == ""))
  match (lines.take 30).findIdx? bannerP with
  | none =>
    match (lines.take 7).find? singleLineName with
    | some l => l
    | none => stemOf filename
  | some start =>
    let block := (lines.drop (start + 1)).take 11
    match threeScan block with
    | some nm => nm
    | none =>
      match block.find? singleLineName with
      | some l => l
      | none => stemOf filename

/-- The headnote dash class `[‚Äî‚Äì-]` (mojibake characters U+201A, U+00C4,
U+00EE, U+00EC from the source, plus the hyphen). -/
def hdDash (c : Char) : Bool :=
  c == '‚' || c == 'Ä' || c == 'î' || c == 'ì' || c == '-'

/-- Word count of Python `str.split()` (runs of whitespace, no empties). -/
def wordsGo : Nat → List Char → Nat
  | 0, _ => 0
  | _ + 1, [] => 0
  | fuel + 1, c :: cs =>
    if pySpace c then wordsGo fuel cs
    else
      let w := (c :: cs).takeWhile (fun d => !pySpace d)
      1 + wordsGo fuel ((c :: cs).drop w.length)

def countWords (l : List Char) : Nat := wordsGo l.length l

/-- `extract_headnotes(text)` from `streamlit_app.py`. -/
def extract_headnotes (text : String) : List String :=
  sortedSet (((pySplitLines text).take 160).flatMap (fun line =>
    if line.data.any hdDash then
      (splitOnPred hdDash line.data).filterMap (fun item =>
        let cleaned := stripList item
        if !cleaned.isEmpty && decide (countWords cleaned > 2) &&
            !startsList "syariah appeal board".data (lowerList cleaned) then
          some (⟨cleaned⟩ : String)
        else none)
    else []))

/-- `extract_cases_referred_block(text)` from `streamlit_app.py`. -/
def extract_cases_referred_block (text : String) : List String :=
  sortedSet ((extract_header_window (pySplitLines text) casesStartP
      [fun l => ciStarts "Legislation referred to" l,
       fun l => ciStarts "Quranic verse" l, issuesStopP,
       fun l => ciStarts "Background" l]).filterMap (fun line =>
    if upperVupper false line.data || startsList "Re ".data line.data then
      some (pyStrip line)
    else if isSub "SSAR" line || isSub "SGSAB" line then some (pyStrip line)
    else none))

/-- The fixed topic taxonomy `ISSUE_TOPICS` of `streamlit_app.py`. -/
def ISSUE_TOPICS : List (String × List String) :=
  [("Divorce Grounds",
    ["talak", "fasakh", "khuluk", "nusyuz", "irretrievable breakdown",
     "judicial separation", "taklik", "pronouncement", "divorce",
     "fault", "reconciliation", "nullity", "consent order", "bain", "rajii"]),
   ("Matrimonial Asset Division",
    ["division", "apportion", "matrimonial asset", "matrimonial property", "property",
     "assets", "cpf", "hdb", "sale of flat", "valuation", "uplift", "refund", "ownership",
     "net sale proceeds", "structured approach", "direct financial",
     "indirect contribution", "asset pool"]),
   ("Child Matters",
    ["custody", "care and control", "access", "maintenance (child)", "parenting",
     "joint custody", "variation of custody", "hadhanah", "wilayah",
     "school", "accommodation", "child maintenance", "welfare",
     "guardianship", "minor child", "children"]),
   ("Jurisdiction",
    ["jurisdiction", "forum", "appeal board powers", "court jurisdiction",
     "s 35", "section 35", "s 526", "legal capacity", "variation", "procedural",
     "intervener"]),
   ("Marriage",
    ["marriage", "wali", "nikah", "consent", "registration",
     "polygamy", "remarry", "solemnisation", "validation", "dissolution"])]

/-- The effective literal of the interpolated pattern `rf"\b{k}\b"`: the
keyword is not escaped, so its parentheses (only in "maintenance (child)")
become a regex group and match nothing themselves. -/
def kwChars (k : String) : List Char :=
  k.data.filter (fun c => !(c == '(' || c == ')'))

/-- `\b{lit}\b` at the current position. -/
def wbHere (lit : List Char) (prev : Option Char) (s : List Char) : Bool :=
  match matchLitP lit prev s with
  | some (last, rest) => boundaryB prev s && boundaryB last rest
  | none => false

/-- `re.search(rf"\b{lit}\b", s)`. -/
def wbSearch (lit : List Char) : Option Char → List Char → Bool
  | prev, [] => wbHere lit prev []
  | prev, c :: cs => wbHere lit prev (c :: cs) || wbSearch lit (some c) cs

def kwSearch (k h : String) : Bool := wbSearch (kwChars k) none h.data

/-- `set.add`. -/
def setAdd (x : String) (l : List String) : List String :=
  if x ∈ l then l else l ++ [x]

/-- The `assigned` set accumulated by `assign_topic_groups`. -/
def assignedGroups (headnotes : List String) : List String :=
  headnotes.foldl
    (fun acc h =>
      ISSUE_TOPICS.foldl
        (fun acc2 gk =>
          if gk.2.any (fun k => kwSearch k (lowerStr h)) then setAdd gk.1 acc2 else acc2)
        acc)
    []

/-- `assign_topic_groups(headnotes)` from `streamlit_app.py`:
`sorted(assigned) if assigned else ["Other"]`. -/
def assign_topic_groups (headnotes : List String) : List String :=
  if (assignedGroups headnotes).isEmpty then ["Other"]
  else sortStrings (assignedGroups headnotes)

def extract_main_body (text : String) : String := text

/-- The per-document body of the upload loop: build one record from the
extracted text and the file name.  `none` models an uncaught extractor
exception (only the scripture extractor can raise). -/
def buildRecord (text filename : String) : Option CaseRecord :=
  match extract_quranic_verses_block text with
  | none => none
  | some qv =>
    some
      { caseName := extract_case_name_first_block text filename
        year := extract_year text
        headnotes := extract_headnotes text
        topicGroups := assign_topic_groups (extract_headnotes text)
        legislation := extract_legislation_block text
        casesReferred := extract_cases_referred_block text
        quranicVerses := qv
        mainBody := extract_main_body text }

/-- The upload loop over `(text, filename)` pairs: strictly sequential, one
record appended per document, no record dropped. -/
def processFiles (docs : List (String × String)) : Option (List CaseRecord) :=
  optMapM (fun d => buildRecord d.1 d.2) docs

theorem mem_setAdd (z x : String) (l : List String) :
    z ∈ setAdd x l ↔ z ∈ l ∨ z = x := by
  unfold setAdd
  by_cases h : x ∈ l
  · rw [if_pos h]
    constructor
    · exact Or.inl
    · rintro (hz | rfl)
      · exact hz
      · exact h
  · rw [if_neg h]
    simp [List.mem_append]

theorem nodup_setAdd (x : String) (l : List String) (h : l.Nodup) :
    (setAdd x l).Nodup := by
  unfold setAdd
  by_cases hx : x ∈ l
  · rw [if_pos hx]; exact h
  · rw [if_neg hx]
    simp [List.nodup_append, h, hx]

theorem foldTopics_mem (topics : List (String × List String)) (h : String)
    (acc : List String) (z : String) :
    (z ∈ topics.foldl
        (fun acc2 gk =>
          if gk.2.any (fun k => kwSearch k (lowerStr h)) then setAdd gk.1 acc2 else acc2)
        acc) ↔
      z ∈ acc ∨ ∃ gk ∈ topics, gk.1 = z ∧
        gk.2.any (fun k => kwSearch k (lowerStr h)) = true := by
  induction topics generalizing acc with
  | nil => simp
  | cons t ts ih =>
      simp only [List.foldl_cons]
      rw [ih]
      by_cases ht : t.2.any (fun k => kwSearch k (lowerStr h)) = true
      · rw [if_pos ht, mem_setAdd]
        constructor
        · rintro ((hz | rfl) | ⟨gk, hgk, h1, hk⟩)
          · exact Or.inl hz
          · exact Or.inr ⟨t, List.mem_cons_self t ts, rfl, ht⟩
          · exact Or.inr ⟨gk, List.mem_cons_of_mem t hgk, h1, hk⟩
        · rintro (hz | ⟨gk, hgk, h1, hk⟩)
          · exact Or.inl (Or.inl hz)
          · rcases List.mem_cons.mp hgk with rfl | hgk
            · exact Or.inl (Or.inr h1.symm)
            · exact Or.inr ⟨gk, hgk, h1, hk⟩
      · rw [if_neg ht]
        constructor
        · rintro (hz | ⟨gk, hgk, h1, hk⟩)
          · exact Or.inl hz
          · exact Or.inr ⟨gk, List.mem_cons_of_mem t hgk, h1, hk⟩
        · rintro (hz | ⟨gk, hgk, h1, hk⟩)
          · exact Or.inl hz
          · rcases List.mem_cons.mp hgk with rfl | hgk
            · exact absurd hk ht
            · exact Or.inr ⟨gk, hgk, h1, hk⟩

theorem foldHs_mem (hs : List String) (acc : List String) (z : String) :
    (z ∈ hs.foldl
        (fun acc h =>
          ISSUE_TOPICS.foldl
            (fun acc2 gk =>
              if gk.2.any (fun k => kwSearch k (lowerStr h)) then setAdd gk.1 acc2 else acc2)
            acc)
        acc) ↔
      z ∈ acc ∨ ∃ h ∈ hs, ∃ gk ∈ ISSUE_TOPICS, gk.1 = z ∧
        gk.2.any (fun k => kwSearch k (lowerStr h)) = true := by
  induction hs generalizing acc with
  | nil => simp
  | cons h0 hs ih =>
      simp only [List.foldl_cons]
      rw [ih, foldTopics_mem]
      constructor
      · rintro ((hz | ⟨gk, hgk, h1, hk⟩) | ⟨h, hh, hrest⟩)
        · exact Or.inl hz
        · exact Or.inr ⟨h0, List.mem_cons_self h0 hs, gk, hgk, h1, hk⟩
        · exact Or.inr ⟨h, List.mem_cons_of_mem h0 hh, hrest⟩
      · rintro (hz | ⟨h, hh, gk, hgk, h1, hk⟩)
        · exact Or.inl (Or.inl hz)
        · rcases List.mem_cons.mp hh with rfl | hh
          · exact Or.inl (Or.inr ⟨gk, hgk, h1, hk⟩)
          · exact Or.inr ⟨h, hh, gk, hgk, h1, hk⟩

theorem foldTopics_nodup (topics : List (String × List String)) (h : String)
    (acc : List String) (hacc : acc.Nodup) :
    (topics.foldl
        (fun acc2 gk =>
          if gk.2.any (fun k => kwSearch k (lowerStr h)) then setAdd gk.1 acc2 else acc2)
        acc).Nodup := by
  induction topics generalizing acc with
  | nil => exact hacc
  | cons t ts ih =>
      simp only [List.foldl_cons]
      by_cases ht : t.2.any (fun k => kwSearch k (lowerStr h)) = true
      · rw [if_pos ht]
        exact ih _ (nodup_setAdd t.1 acc hacc)
      · rw [if_neg ht]
        exact ih _ hacc

theorem assignedGroups_nodup (hs : List String) : (assignedGroups hs).Nodup := by
  unfold assignedGroups
  generalize hstart : ([] : List String) = acc0
  have hacc : acc0.Nodup := by rw [← hstart]; exact List.nodup_nil
  clear hstart
  induction hs generalizing acc0 with
  | nil => exact hacc
  | cons h0 hs ih =>
      simp only [List.foldl_cons]
      exact ih _ (foldTopics_nodup ISSUE_TOPICS h0 acc0 hacc)

/-- C8: `topicGroups` is never empty; it is the sorted, duplicate-free list of
exactly the taxonomy categories one of whose keywords matches some headnote,
and it is `["Other"]` exactly when no category matches. -/
theorem assign_topic_groups_spec (hs : List String) :
    assign_topic_groups hs ≠ [] ∧
    StrSorted (assign_topic_groups hs) ∧
    (assign_topic_groups hs).Nodup ∧
    ∀ g, g ∈ assign_topic_groups hs ↔
      ((∃ h ∈ hs, ∃ gk ∈ ISSUE_TOPICS, gk.1 = g ∧
          gk.2.any (fun k => kwSearch k (lowerStr h)) = true) ∨
        ((¬ ∃ h ∈ hs, ∃ gk ∈ ISSUE_TOPICS,
            gk.2.any (fun k => kwSearch k (lowerStr h)) = true) ∧ g = "Other")) := by
  have hmem : ∀ z, z ∈ assignedGroups hs ↔
      ∃ h ∈ hs, ∃ gk ∈ ISSUE_TOPICS, gk.1 = z ∧
        gk.2.any (fun k => kwSearch k (lowerStr h)) = true := by
    intro z
    unfold assignedGroups
    rw [foldHs_mem]
    simp
  unfold assign_topic_groups
  by_cases hA : (assignedGroups hs).isEmpty
  · rw [if_pos hA]
    have hempty : assignedGroups hs = [] := by
      cases hAG : assignedGroups hs with
      | nil => rfl
      | cons a l => rw [hAG] at hA; exact absurd hA (by simp)
    have hno : ¬ ∃ h ∈ hs, ∃ gk ∈ ISSUE_TOPICS,
        gk.2.any (fun k => kwSearch k (lowerStr h)) = true := by
      rintro ⟨h, hh, gk, hgk, hk⟩
      have : gk.1 ∈ assignedGroups hs := (hmem gk.1).mpr ⟨h, hh, gk, hgk, rfl, hk⟩
      rw [hempty] at this
      exact absurd this (List.not_mem_nil gk.1)
    refine ⟨by simp, List.pairwise_singleton _ _, by simp, ?_⟩
    intro g
    constructor
    · intro hg
      rcases List.mem_singleton.mp hg with rfl
      exact Or.inr ⟨hno, rfl⟩
    · rintro (⟨h, hh, gk, hgk, h1, hk⟩ | ⟨_, rfl⟩)
      · exact absurd ⟨h, hh, gk, hgk, hk⟩ hno
      · exact List.mem_singleton.mpr rfl
  · rw [if_neg hA]
    have hne : assignedGroups hs ≠ [] := by
      intro hnil
      rw [hnil] at hA
      exact hA rfl
    have hsome : ∃ h ∈ hs, ∃ gk ∈ ISSUE_TOPICS,
        gk.2.any (fun k => kwSearch k (lowerStr h)) = true := by
      rcases List.exists_mem_of_ne_nil _ hne with ⟨z, hz⟩
      rcases (hmem z).mp hz with ⟨h, hh, gk, hgk, _, hk⟩
      exact ⟨h, hh, gk, hgk, hk⟩
    refine ⟨?_, sorted_sortStrings _, ?_, ?_⟩
    · intro hnil
      have hlen := (perm_sortStrings (assignedGroups hs)).length_eq
      rw [hnil] at hlen
      exact hne (List.eq_nil_of_length_eq_zero hlen.symm)
    · exact ((perm_sortStrings _).nodup_iff).mpr (assignedGroups_nodup hs)
    · intro g
      rw [(perm_sortStrings _).mem_iff, hmem g]
      constructor
      · exact Or.inl
      · rintro (hg | ⟨hno, rfl⟩)
        · exact hg
        · exact absurd hsome hno

theorem yearScan_none_iff : ∀ l : List Char,
    yearScan l = none ↔ ∀ i, yearHere (l.drop i) = none := by
  intro l
  induction l with
  | nil =>
      constructor
      · intro _ i
        rw [List.drop_nil]
        rfl
      · intro _
        rfl
  | cons c cs ih =>
      cases hy : yearHere (c :: cs) with
      | some v =>
          simp only [yearScan, hy]
          constructor
          · intro h
            exact absurd h (by simp)
          · intro h
            have h0 := h 0
            rw [List.drop_zero, hy] at h0
            exact absurd h0 (by simp)
      | none =>
          simp only [yearScan, hy]
          rw [ih]
          constructor
          · intro h i
            cases i with
            | zero => rw [List.drop_zero]; exact hy
            | succ j => rw [List.drop_succ_cons]; exact h j
          · intro h j
            have hj := h (j + 1)
            rw [List.drop_succ_cons] at hj
            exact hj

theorem yearScan_some_first : ∀ (l : List Char) (y : Nat), yearScan l = some y →
    ∃ i, yearHere (l.drop i) = some y ∧ ∀ j, j < i → yearHere (l.drop j) = none := by
  intro l
  induction l with
  | nil => intro y h; exact absurd h (by simp [yearScan])
  | cons c cs ih =>
      intro y h
      cases hy : yearHere (c :: cs) with
      | some v =>
          simp only [yearScan, hy] at h
          refine ⟨0, ?_, ?_⟩
          · rw [List.drop_zero, hy, h]
          · intro j hj
            exact absurd hj (Nat.not_lt_zero j)
      | none =>
          simp only [yearScan, hy] at h
          obtain ⟨i, hi, hlt⟩ := ih y h
          refine ⟨i + 1, ?_, ?_⟩
          · rw [List.drop_succ_cons]; exact hi
          · intro j hj
            cases j with
            | zero => rw [List.drop_zero]; exact hy
            | succ j2 => rw [List.drop_succ_cons]; exact hlt j2 (by omega)

theorem optMapM_length {a b : Type} (f : a → Option b) :
    ∀ (xs : List a) (ys : List b), optMapM f xs = some ys → ys.length = xs.length := by
  intro xs
  induction xs with
  | nil =>
      intro ys h
      simp only [optMapM] at h
      injection h with h2
      rw [← h2]
      rfl
  | cons x xs ih =>
      intro ys h
      simp only [optMapM] at h
      cases hf : f x with
      | none => rw [hf] at h; exact absurd h (by simp)
      | some y =>
          rw [hf] at h
          cases hr : optMapM f xs with
          | none => rw [hr] at h; exact absurd h (by simp)
          | some ys2 =>
              rw [hr] at h
              injection h with h2
              rw [← h2]
              simp [ih ys2 hr]

/-- C9: `extract_year` returns the value of the leftmost `19xx`/`20xx` match
and `none` when there is no match at any position; a document with no year is
still turned into a record (with `year := none`) by the upload loop, which
produces exactly one record per document. -/
theorem extract_year_first_match (t fn : String) :
    (extract_year t = none ↔ ∀ i, yearHere (t.data.drop i) = none) ∧
    (∀ y, extract_year t = some y →
      ∃ i, yearHere (t.data.drop i) = some y ∧
        ∀ j, j < i → yearHere (t.data.drop j) = none) ∧
    (extract_quranic_verses_block t ≠ none →
      ∃ r, buildRecord t fn = some r ∧ r.year = extract_year t) ∧
    (∀ (docs : List (String × String)) (recs : List CaseRecord),
      processFiles docs = some recs → recs.length = docs.length) := by
  refine ⟨yearScan_none_iff t.data, fun y h => yearScan_some_first t.data y h, ?_, ?_⟩
  · intro hq
    cases hqv : extract_quranic_verses_block t with
    | none => exact absurd hqv hq
    | some qv =>
        refine ⟨{ caseName := extract_case_name_first_block t fn
                  year := extract_year t
                  headnotes := extract_headnotes t
                  topicGroups := assign_topic_groups (extract_headnotes t)
                  legislation := extract_legislation_block t
                  casesReferred := extract_cases_referred_block t
                  quranicVerses := qv
                  mainBody := extract_main_body t }, ?_, rfl⟩
        unfold buildRecord
        rw [hqv]
  · exact fun docs recs h => optMapM_length _ docs recs h

/-- Witness for C9 on a document with no year-like substring: the scripture
extractor does not raise, the record is built, and its year is absent. -/
theorem extract_year_first_match_witness :
    extract_quranic_verses_block "no year token here" ≠ none ∧
      ∃ r, buildRecord "no year token here" "case1.pdf" = some r ∧ r.year = none := by
  have h1 : extract_quranic_verses_block "no year token here" ≠ none := by decide
  obtain ⟨r, hr, hy⟩ :=
    (extract_year_first_match "no year token here" "case1.pdf").2.2.1 h1
  refine ⟨h1, r, hr, ?_⟩
  rw [hy]
  decide

end SSAR
